import Mathlib

/-!
Shallow embedding of the per-session game core of `src/main.go` (the `nimm`
terminal nim game).  The session state is the Go struct `model`; every event
the Bubble Tea loop delivers (`timeMsg`, `tea.WindowSizeMsg` and the key
messages matched in `model.Update`) is one constructor of `Msg`, and `update`
is a direct transcription of `model.Update` (src/main.go:189-286).

Machine integers are embedded as `Int` (Go `int` is 64-bit; every quantity in
the game logic stays far away from the 2^63 boundary, and the only unsigned
conversion, `uint(...)` inside `View`, is modelled explicitly via `goUint`).
Go slices become `List`s; slice indexing at positions that would panic in Go
is modelled total via `List.getD` — the reachability invariants proved below
show that the game never reaches a state in which those accesses are out of
range, so the total embedding and the Go code agree on every reachable state.
-/

namespace Nimm

/-- The abstract per-session input events consumed by `model.Update`
(src/main.go:189-286): the periodic timer tick, a terminal resize, the eight
key bindings of `keyMap`, and `keyOther` for any key matching no binding
(which falls through the `switch` unchanged). -/
inductive Msg where
  | timeMsg (t : Int)
  | windowSize (width height : Int)
  | keyQuit
  | keySubmit
  | keySelect
  | keyDown
  | keyUp
  | keyRight
  | keyLeft
  | keyHelp
  | keyOther
deriving DecidableEq

/-- The Go struct `model` (src/main.go:166-181).  `help.Model` contributes the
two fields the game logic touches: `ShowAll` (toggled by the help key) and
`Width` (set on resize). -/
structure Model where
  term : String
  width : Int
  height : Int
  time : Int
  helpShowAll : Bool
  helpWidth : Int
  field : List (List Bool)
  row : Int
  col : Int
  rows : Int
  cols : Int
  marked_row : Int
  marked_columns : List Int
  player : Int
deriving DecidableEq

/-- The initial 4x7 board literal of `teaHandler` (src/main.go:151-156). -/
def initField : List (List Bool) :=
  [[false, false, false, true, false, false, false],
   [false, false, true, true, true, false, false],
   [false, true, true, true, true, true, false],
   [true, true, true, true, true, true, true]]

/-- The model built for a fresh connection in `teaHandler`
(src/main.go:144-160).  Fields not listed in the Go literal take Go's zero
value: cursor `(0,0)`, `marked_row = 0`, `marked_columns = nil`; `help.New()`
starts with `ShowAll = false` and `Width = 0`. -/
def initModel (term : String) (w h t : Int) : Model :=
  { term := term, width := w, height := h, time := t,
    helpShowAll := false, helpWidth := 0,
    field := initField, row := 0, col := 0, rows := 4, cols := 7,
    marked_row := 0, marked_columns := [], player := 1 }

/-- Reading `field[r][c]`.  Go panics on an out-of-range index; the embedding
returns `false` there (the invariants below show in-range on all reachable
uses, where the two semantics agree). -/
def getCell (field : List (List Bool)) (r c : Int) : Bool :=
  if 0 ≤ r ∧ 0 ≤ c then (field.getD r.toNat []).getD c.toNat false else false

/-- Inner loop of `available` (src/main.go:298-308): present cells in one row. -/
def availRow : List Bool → Nat
  | [] => 0
  | a :: rest => (if a = true then 1 else 0) + availRow rest

/-- `available(field)` (src/main.go:298-308): total number of present cells. -/
def available : List (List Bool) → Nat
  | [] => 0
  | cols :: rest => availRow cols + available rest

/-- Inner loop of the `n_available` computation in the submit branch
(src/main.go:206-217): present cells of one row (with row index `r`, cells
counted from column index `c`) that are not inside the marked range. -/
def countCellsFrom (mrow lo hi r : Int) : Int → List Bool → Nat
  | _, [] => 0
  | c, a :: rest =>
      (if a = true ∧ ¬(r = mrow ∧ lo ≤ c ∧ c ≤ hi) then 1 else 0) +
        countCellsFrom mrow lo hi r (c + 1) rest

/-- Outer loop of the `n_available` computation, rows counted from index `r`. -/
def n_availableFrom (mrow lo hi : Int) : Int → List (List Bool) → Nat
  | _, [] => 0
  | r, cols :: rest =>
      countCellsFrom mrow lo hi r 0 cols + n_availableFrom mrow lo hi (r + 1) rest

/-- `n_available` of the submit branch (src/main.go:206-217): the number of
present cells that survive clearing columns `lo..hi` of row `mrow`. -/
def n_available (field : List (List Bool)) (mrow lo hi : Int) : Nat :=
  n_availableFrom mrow lo hi 0 field

/-- One row of the clearing loop (src/main.go:222-225): columns `lo..hi`
become absent.  (The Go loop writes exactly the indices `lo..hi`; mapping the
whole row with the range test is extensionally the same write.) -/
def clearColsFrom (lo hi : Int) : Int → List Bool → List Bool
  | _, [] => []
  | c, a :: rest =>
      (if lo ≤ c ∧ c ≤ hi then false else a) :: clearColsFrom lo hi (c + 1) rest

/-- All rows of the clearing loop: only row `mrow` is touched. -/
def clearRowsFrom (mrow lo hi : Int) : Int → List (List Bool) → List (List Bool)
  | _, [] => []
  | r, cols :: rest =>
      (if r = mrow then clearColsFrom lo hi 0 cols else cols) ::
        clearRowsFrom mrow lo hi (r + 1) rest

/-- The "disable marked columns" loop of the submit branch
(src/main.go:222-225). -/
def clearRange (field : List (List Bool)) (mrow lo hi : Int) : List (List Bool) :=
  clearRowsFrom mrow lo hi 0 field

/-- `contains(s, e)` (src/main.go:288-296), used by `View` to decide whether a
column is inside the marked range. -/
def contains (s : List Int) (e : Int) : Bool :=
  if s.length = 1 then e == s.getD 0 0
  else if s.length = 2 then decide (s.getD 0 0 ≤ e ∧ e ≤ s.getD 1 0)
  else false

/-- The value of `m.marked_columns` right after the "start new selection if
row changed" reset of the select branch (src/main.go:241-245). -/
def workingColumns (m : Model) : List Int :=
  if m.marked_row ≠ m.row then [] else m.marked_columns

/-- Line 259 of the select branch: `append(s[0:1], s[len(s)-1:]...)`, keeping
only the first and last element of the (sorted, non-empty) working slice. -/
def collapse (s : List Int) : List Int :=
  [s.getD 0 0, s.getD (s.length - 1) 0]

/-- `model.Update` (src/main.go:189-286), transcribed branch by branch.
`keyQuit` returns the model unchanged (with the `tea.Quit` command, which ends
the session but does not mutate state).  In the submit branch the Go code
indexes `marked_columns[0]` and `marked_columns[1]`; the reachability
invariant proved below shows the slice always has exactly two elements there,
so the total `getD` reads agree with Go.  `sort.Slice` with the `<` comparator
sorts ascending; since sorted permutations of an integer list are unique, any
sorting algorithm gives the same slice, and `List.insertionSort` is used. -/
def update (m : Model) (msg : Msg) : Model :=
  match msg with
  | .timeMsg t => { m with time := t }
  | .windowSize w h => { m with height := h, width := w, helpWidth := w }
  | .keyQuit => m
  | .keySubmit =>
      if m.marked_columns = [] then m
      else
        if n_available m.field m.marked_row (m.marked_columns.getD 0 0)
            (m.marked_columns.getD 1 0) = 0 then m
        else
          { m with
            field := clearRange m.field m.marked_row (m.marked_columns.getD 0 0)
              (m.marked_columns.getD 1 0),
            row := 0, col := 0,
            marked_columns := [],
            marked_row := m.rows,
            player := m.player % 2 + 1 }
  | .keySelect =>
      if getCell m.field m.row m.col = false then m
      else
        if workingColumns m ≠ [] ∧ (workingColumns m).getD 0 0 ≤ m.col ∧
            m.col ≤ (workingColumns m).getD 1 0 then
          { m with marked_row := m.row, marked_columns := [] }
        else
          { m with marked_row := m.row,
                   marked_columns :=
                     collapse (List.insertionSort (· ≤ ·) (workingColumns m ++ [m.col])) }
  | .keyDown =>
      let r := m.row + 1
      { m with row := if r > m.rows - 2 then m.rows - 1 else r }
  | .keyUp =>
      let r := m.row - 1
      { m with row := if r < 0 then 0 else r }
  | .keyRight =>
      let c := m.col + 1
      { m with col := if c > m.cols - 2 then m.cols - 1 else c }
  | .keyLeft =>
      let c := m.col - 1
      { m with col := if c < 0 then 0 else c }
  | .keyHelp => { m with helpShowAll := !m.helpShowAll }
  | .keyOther => m

/-- The session states reachable from a fresh connection by any sequence of
processed events. -/
inductive Reachable : Model → Prop where
  | init (term : String) (w h t : Int) : Reachable (initModel term w h t)
  | step (m : Model) (e : Msg) : Reachable m → Reachable (update m e)

/-- Go's `uint(x)` conversion on a 64-bit `int`: reduction modulo `2^64`. -/
def goUint (x : Int) : Nat := (x % (2 : Int) ^ 64).toNat

/-- The layout quantities computed by `model.View` (src/main.go:310-357): the
left indentation of each horizontally centered block, the status line text and
the fixed margins.  (The styled text, word-wrapping of the static rules
paragraph and the vertical fill are presentation work done by the lipgloss /
reflow libraries on top of these quantities.) -/
structure Frame where
  titleIndent : Nat
  rulesIndent : Nat
  statusText : String
  statusIndent : Nat
  gameIndent : Nat
  helpIndentF : Nat
  leftMargin : Nat
deriving DecidableEq

/-- The layout part of `model.View` (src/main.go:310-357): title indent from
line 312, rules indent from line 321, status text and indent from lines
323-327, board indent from line 346, help indent from lines 347-350, outer
margin from line 357. -/
def view (m : Model) : Frame :=
  { titleIndent := goUint (m.width - 11) / 2
    rulesIndent := 4
    statusText :=
      if available m.field = 1 then "Player " ++ toString m.player ++ " lost  "
      else "Player " ++ toString m.player ++ "'s turn"
    statusIndent := goUint (m.width - 15) / 2
    gameIndent := goUint (m.width - 24) / 2
    helpIndentF := if m.helpShowAll then goUint (m.width - 34) / 2 else goUint (m.width - 24) / 2
    leftMargin := 2 }

/-- Proof helper (not source): present cells of one row that are inside the
marked range — the cells the submit loop skips over. -/
def markedRowFrom (mrow lo hi r : Int) : Int → List Bool → Nat
  | _, [] => 0
  | c, a :: rest =>
      (if a = true ∧ r = mrow ∧ lo ≤ c ∧ c ≤ hi then 1 else 0) +
        markedRowFrom mrow lo hi r (c + 1) rest

/-- Proof helper (not source): all present cells inside the marked range. -/
def markedTotalFrom (mrow lo hi : Int) : Int → List (List Bool) → Nat
  | _, [] => 0
  | r, cols :: rest =>
      markedRowFrom mrow lo hi r 0 cols + markedTotalFrom mrow lo hi (r + 1) rest

/-- Shape facts that hold in every reachable state: the board dimensions set
by `teaHandler` and the cursor clamped to them. -/
def BaseInv (m : Model) : Prop :=
  m.rows = 4 ∧ m.cols = 7 ∧ 0 ≤ m.row ∧ m.row < m.rows ∧ 0 ≤ m.col ∧ m.col < m.cols

/-- Selection facts that hold in every reachable state: `marked_columns` is
either nil or an ascending in-bounds pair on a valid `marked_row`, and a
non-empty selection always covers at least one present cell (the cell whose
toggle created or last extended it). -/
def SelInv (m : Model) : Prop :=
  m.marked_columns = [] ∨
    ∃ lo hi, m.marked_columns = [lo, hi] ∧ lo ≤ hi ∧ 0 ≤ lo ∧ hi < m.cols ∧
      0 ≤ m.marked_row ∧ m.marked_row < m.rows ∧
      ∃ c, lo ≤ c ∧ c ≤ hi ∧ getCell m.field m.marked_row c = true

/-- The reachability invariant. -/
def Inv (m : Model) : Prop := BaseInv m ∧ SelInv m

/-! ### Concrete session states used as witnesses -/

/-- Shorthand for a session state of the 80x24 demo connection (all fields the
game logic never rewrites keep their `teaHandler` values). -/
def mkState (field : List (List Bool)) (row col marked_row : Int)
    (marked_columns : List Int) (player : Int) : Model :=
  { term := "xterm", width := 80, height := 24, time := 0, helpShowAll := false,
    helpWidth := 0, field := field, row := row, col := col, rows := 4, cols := 7,
    marked_row := marked_row, marked_columns := marked_columns, player := player }

/-- The board after clearing all of row 3. -/
def fieldA : List (List Bool) :=
  [[false, false, false, true, false, false, false],
   [false, false, true, true, true, false, false],
   [false, true, true, true, true, true, false],
   [false, false, false, false, false, false, false]]

/-- The board after clearing rows 2 and 3. -/
def fieldB : List (List Bool) :=
  [[false, false, false, true, false, false, false],
   [false, false, true, true, true, false, false],
   [false, false, false, false, false, false, false],
   [false, false, false, false, false, false, false]]

/-- The board with only the single cell (0,3) left. -/
def fieldC : List (List Bool) :=
  [[false, false, false, true, false, false, false],
   [false, false, false, false, false, false, false],
   [false, false, false, false, false, false, false],
   [false, false, false, false, false, false, false]]

/-- The full board with only cell (3,1) cleared: row 3 has a gap. -/
def fieldGap : List (List Bool) :=
  [[false, false, false, true, false, false, false],
   [false, false, true, true, true, false, false],
   [false, true, true, true, true, true, false],
   [true, false, true, true, true, true, true]]

/-- Events driving a fresh session to a single remaining present cell: clear
row 3 (7 cells), row 2 (5 cells) and row 1 (3 cells), leaving cell (0,3). -/
def freezeEvents : List Msg :=
  [.keyDown, .keyDown, .keyDown, .keySelect,
   .keyRight, .keyRight, .keyRight, .keyRight, .keyRight, .keyRight, .keySelect, .keySubmit,
   .keyDown, .keyDown, .keyRight, .keySelect,
   .keyRight, .keyRight, .keyRight, .keyRight, .keySelect, .keySubmit,
   .keyDown, .keyRight, .keyRight, .keySelect,
   .keyRight, .keyRight, .keySelect, .keySubmit]

/-- A reachable state with `availableCount = 1`. -/
def frozenModel : Model := List.foldl update (initModel "xterm" 80 24 0) freezeEvents

/-- Events selecting cell (3,0) of the fresh board. -/
def selEvents : List Msg := [.keyDown, .keyDown, .keyDown, .keySelect]

/-- A reachable state with the selection `[0, 0]` on row 3 and a full board. -/
def selModel : Model := List.foldl update (initModel "xterm" 80 24 0) selEvents

/-- Events selecting cell (3,0) and then moving the cursor to (3,2). -/
def extendEvents : List Msg :=
  [.keyDown, .keyDown, .keyDown, .keySelect, .keyRight, .keyRight]

/-- A reachable state with the selection `[0, 0]` on row 3 and cursor (3,2). -/
def extendModel : Model := List.foldl update (initModel "xterm" 80 24 0) extendEvents

/-- Events clearing cell (3,1), then selecting the range `[0, 2]` on row 3
(straddling the cleared cell) and parking the cursor on the absent cell. -/
def gapEvents : List Msg :=
  [.keyDown, .keyDown, .keyDown, .keyRight, .keySelect, .keySubmit,
   .keyDown, .keyDown, .keyDown, .keySelect, .keyRight, .keyRight, .keySelect, .keyLeft]

/-- A reachable state whose selection `[0, 2]` on row 3 straddles the absent
cell (3,1), with the cursor on that absent cell. -/
def gapModel : Model := List.foldl update (initModel "xterm" 80 24 0) gapEvents

/-- Modelled from the claim's wording, for refutation: every row of the fresh
board holds its `2*i+1` present cells right-aligned, flush against the last
of the 7 columns. -/
def rightAlignedClaim : Prop :=
  (∀ i : Nat, i < 4 → availRow (initField.getD i []) = 2 * i + 1) ∧
  ∀ i : Nat, i < 4 → ∀ j : Nat, j < 7 →
    (getCell initField i j = true ↔ 7 - (2 * i + 1) ≤ j)

/-! ### Counting lemmas -/

theorem availRow_clearColsFrom (mrow lo hi : Int) (cols : List Bool) :
    ∀ c : Int, availRow (clearColsFrom lo hi c cols) = countCellsFrom mrow lo hi mrow c cols := by
  induction cols with
  | nil => intro c; rfl
  | cons a rest ih =>
    intro c
    simp only [clearColsFrom, availRow, countCellsFrom, ih (c + 1)]
    by_cases h : lo ≤ c ∧ c ≤ hi
    · simp [h]
    · simp [h]

theorem countCellsFrom_ne (mrow lo hi r : Int) (hne : r ≠ mrow) (cols : List Bool) :
    ∀ c : Int, countCellsFrom mrow lo hi r c cols = availRow cols := by
  induction cols with
  | nil => intro c; rfl
  | cons a rest ih =>
    intro c
    simp only [clearColsFrom, availRow, countCellsFrom, ih (c + 1)]
    simp [hne]

theorem available_clearRowsFrom (mrow lo hi : Int) (f : List (List Bool)) :
    ∀ r : Int, available (clearRowsFrom mrow lo hi r f) = n_availableFrom mrow lo hi r f := by
  induction f with
  | nil => intro r; rfl
  | cons cols rest ih =>
    intro r
    simp only [clearRowsFrom, available, n_availableFrom, ih (r + 1)]
    by_cases h : r = mrow
    · rw [if_pos h, h, availRow_clearColsFrom mrow lo hi cols 0]
    · rw [if_neg h, countCellsFrom_ne mrow lo hi r h cols 0]

/-- Clearing the marked range leaves exactly the `n_available` cells counted
by the submit branch. -/
theorem available_clearRange (f : List (List Bool)) (mrow lo hi : Int) :
    available (clearRange f mrow lo hi) = n_available f mrow lo hi :=
  available_clearRowsFrom mrow lo hi f 0

theorem countCellsFrom_add_marked (mrow lo hi r : Int) (cols : List Bool) :
    ∀ c : Int,
      countCellsFrom mrow lo hi r c cols + markedRowFrom mrow lo hi r c cols = availRow cols := by
  induction cols with
  | nil => intro c; rfl
  | cons a rest ih =>
    intro c
    simp only [countCellsFrom, markedRowFrom, availRow]
    have h2 := ih (c + 1)
    by_cases h : r = mrow ∧ lo ≤ c ∧ c ≤ hi
    · by_cases ha : a = true
      · rw [if_neg (by tauto), if_pos ⟨ha, h⟩, if_pos ha]; omega
      · rw [if_neg (by tauto), if_neg (by tauto), if_neg ha]; omega
    · by_cases ha : a = true
      · rw [if_pos ⟨ha, by tauto⟩, if_neg (by tauto), if_pos ha]; omega
      · rw [if_neg (by tauto), if_neg (by tauto), if_neg ha]; omega

theorem n_availableFrom_add_markedTotal (mrow lo hi : Int) (f : List (List Bool)) :
    ∀ r : Int,
      n_availableFrom mrow lo hi r f + markedTotalFrom mrow lo hi r f = available f := by
  induction f with
  | nil => intro r; rfl
  | cons cols rest ih =>
    intro r
    simp only [n_availableFrom, markedTotalFrom, available]
    have h1 := countCellsFrom_add_marked mrow lo hi r cols 0
    have h2 := ih (r + 1)
    omega

/-- `n_available` never exceeds the total number of present cells. -/
theorem n_available_le (f : List (List Bool)) (mrow lo hi : Int) :
    n_available f mrow lo hi ≤ available f := by
  have h := n_availableFrom_add_markedTotal mrow lo hi f 0
  unfold n_available
  omega

theorem markedRowFrom_pos (mrow lo hi : Int) (cols : List Bool) :
    ∀ (c0 : Int) (n : Nat), cols.getD n false = true → lo ≤ c0 + n → c0 + n ≤ hi →
      1 ≤ markedRowFrom mrow lo hi mrow c0 cols := by
  induction cols with
  | nil => intro c0 n h _ _; simp [List.getD] at h
  | cons a rest ih =>
    intro c0 n h hlo hhi
    cases n with
    | zero =>
      simp only [List.getD_cons_zero] at h
      have hC : a = true ∧ mrow = mrow ∧ lo ≤ c0 ∧ c0 ≤ hi :=
        ⟨h, rfl, by simpa using hlo, by simpa using hhi⟩
      simp only [markedRowFrom]
      simp only [Nat.cast_zero, add_zero] at *
      rw [if_pos hC]
      omega
    | succ k =>
      have hlo' : lo ≤ c0 + 1 + (k : Int) := by push_cast at hlo ⊢; omega
      have hhi' : c0 + 1 + (k : Int) ≤ hi := by push_cast at hhi ⊢; omega
      have := ih (c0 + 1) k (by simpa using h) hlo' hhi'
      simp only [markedRowFrom]
      omega

theorem markedTotalFrom_pos (mrow lo hi : Int) (f : List (List Bool)) :
    ∀ (r0 : Int) (k : Nat), r0 + k = mrow →
      1 ≤ markedRowFrom mrow lo hi mrow 0 (f.getD k []) →
      1 ≤ markedTotalFrom mrow lo hi r0 f := by
  induction f with
  | nil => intro r0 k _ h; simp [List.getD, markedRowFrom] at h
  | cons cols rest ih =>
    intro r0 k hr h
    cases k with
    | zero =>
      simp only [List.getD_cons_zero] at h
      have hr0 : r0 = mrow := by simpa using hr
      subst hr0
      simp only [markedTotalFrom]
      omega
    | succ k' =>
      have hr' : (r0 + 1) + (k' : Int) = mrow := by push_cast at hr ⊢; omega
      have := ih (r0 + 1) k' hr' (by simpa using h)
      simp only [markedTotalFrom]
      omega

/-- If the marked range covers at least one present cell, `n_available` is
strictly below the total count. -/
theorem n_available_lt (f : List (List Bool)) (mrow lo hi c : Int)
    (h : getCell f mrow c = true) (hlo : lo ≤ c) (hhi : c ≤ hi) :
    n_available f mrow lo hi < available f := by
  unfold getCell at h
  by_cases hp : 0 ≤ mrow ∧ 0 ≤ c
  · rw [if_pos hp] at h
    have hcast : ((c.toNat : Int)) = c := Int.toNat_of_nonneg hp.2
    have hrow : 1 ≤ markedRowFrom mrow lo hi mrow 0 (f.getD mrow.toNat []) := by
      refine markedRowFrom_pos mrow lo hi _ 0 c.toNat h ?_ ?_
      · rw [zero_add, hcast]; exact hlo
      · rw [zero_add, hcast]; exact hhi
    have hrcast : (0 : Int) + (mrow.toNat : Int) = mrow := by
      rw [zero_add, Int.toNat_of_nonneg hp.1]
    have htot := markedTotalFrom_pos mrow lo hi f 0 mrow.toNat hrcast hrow
    have hsum := n_availableFrom_add_markedTotal mrow lo hi f 0
    unfold n_available
    omega
  · rw [if_neg hp] at h
    exact absurd h (by simp)

/-! ### Cell-level description of `clearRange` -/

theorem clearColsFrom_getD (lo hi : Int) (cols : List Bool) :
    ∀ (c0 : Int) (n : Nat),
      (clearColsFrom lo hi c0 cols).getD n false =
        if lo ≤ c0 + n ∧ c0 + n ≤ hi then false else cols.getD n false := by
  induction cols with
  | nil =>
    intro c0 n
    simp only [clearColsFrom, List.getD]
    split <;> simp
  | cons a rest ih =>
    intro c0 n
    cases n with
    | zero => simp [clearColsFrom, List.getD]
    | succ k =>
      have h := ih (c0 + 1) k
      have e : c0 + 1 + (k : Int) = c0 + ((k + 1 : Nat) : Int) := by push_cast; ring
      simp only [clearColsFrom, List.getD_cons_succ]
      rw [h, e]

theorem clearRowsFrom_getD (mrow lo hi : Int) (f : List (List Bool)) :
    ∀ (r0 : Int) (n : Nat),
      (clearRowsFrom mrow lo hi r0 f).getD n [] =
        if r0 + n = mrow then clearColsFrom lo hi 0 (f.getD n []) else f.getD n [] := by
  induction f with
  | nil =>
    intro r0 n
    simp only [clearRowsFrom, List.getD]
    split <;> simp [clearColsFrom]
  | cons cols rest ih =>
    intro r0 n
    cases n with
    | zero => simp [clearRowsFrom, List.getD]
    | succ k =>
      have h := ih (r0 + 1) k
      have e : r0 + 1 + (k : Int) = r0 + ((k + 1 : Nat) : Int) := by push_cast; ring
      simp only [clearRowsFrom, List.getD_cons_succ]
      rw [h, e]

/-- `clearRange` sets exactly the cells of the addressed row/range to absent
and leaves every other cell alone. -/
theorem getCell_clearRange (f : List (List Bool)) (mrow lo hi r c : Int) :
    getCell (clearRange f mrow lo hi) r c =
      if r = mrow ∧ lo ≤ c ∧ c ≤ hi then false else getCell f r c := by
  unfold getCell clearRange
  by_cases hrc : 0 ≤ r ∧ 0 ≤ c
  · rw [if_pos hrc, clearRowsFrom_getD mrow lo hi f 0 r.toNat]
    have er : (0 : Int) + (r.toNat : Int) = r := by
      rw [zero_add, Int.toNat_of_nonneg hrc.1]
    rw [er]
    by_cases hm : r = mrow
    · rw [if_pos hm, clearColsFrom_getD lo hi _ 0 c.toNat]
      have ec : (0 : Int) + (c.toNat : Int) = c := by
        rw [zero_add, Int.toNat_of_nonneg hrc.2]
      rw [ec]
      by_cases hin : lo ≤ c ∧ c ≤ hi
      · rw [if_pos hin, if_pos ⟨hm, hin⟩]
      · rw [if_neg hin, if_neg (by tauto), if_pos hrc]
    · rw [if_neg hm, if_neg (by tauto), if_pos hrc]
  · rw [if_neg hrc]
    split <;> simp [hrc]

/-! ### The two-element collapse of the selection toggle -/

/-- The append/sort/collapse step of the select branch (src/main.go:255-259)
on an empty working set produces the degenerate pair. -/
theorem collapse_sort_single (col : Int) :
    collapse (List.insertionSort (· ≤ ·) ([] ++ [col])) = [col, col] := by
  simp [collapse, List.insertionSort, List.orderedInsert, List.getD]

/-- The append/sort/collapse step of the select branch (src/main.go:255-259)
on an ascending pair `[lo, hi]` and a new column `col`: keeping the first and
last element of the sorted three-element slice yields `[min lo col, max hi col]`. -/
theorem collapse_sort_extend (lo hi col : Int) (h : lo ≤ hi) :
    collapse (List.insertionSort (· ≤ ·) ([lo, hi] ++ [col])) = [min lo col, max hi col] := by
  simp only [List.cons_append, List.nil_append]
  by_cases h1 : hi ≤ col
  · have hs : List.insertionSort (fun a b => a ≤ b) [lo, hi, col] = [lo, hi, col] := by
      simp [List.insertionSort, List.orderedInsert, h1, h]
    rw [hs]
    simp only [collapse, List.getD, List.length_cons, List.length_nil]
    simp
    omega
  · by_cases h2 : lo ≤ col
    · have hs : List.insertionSort (fun a b => a ≤ b) [lo, hi, col] = [lo, col, hi] := by
        simp [List.insertionSort, List.orderedInsert, h1, h2]
      rw [hs]
      simp only [collapse, List.getD, List.length_cons, List.length_nil]
      simp
      omega
    · have hs : List.insertionSort (fun a b => a ≤ b) [lo, hi, col] = [col, lo, hi] := by
        simp [List.insertionSort, List.orderedInsert, h1, h2, h]
      rw [hs]
      simp only [collapse, List.getD, List.length_cons, List.length_nil]
      simp
      omega

/-! ### Characterization of the `update` branches -/

theorem submit_noop_empty (m : Model) (h : m.marked_columns = []) :
    update m .keySubmit = m := by
  simp only [update]
  rw [if_pos h]

theorem submit_noop_zero (m : Model) (h : m.marked_columns ≠ [])
    (hz : n_available m.field m.marked_row (m.marked_columns.getD 0 0)
      (m.marked_columns.getD 1 0) = 0) :
    update m .keySubmit = m := by
  simp only [update]
  rw [if_neg h, if_pos hz]

theorem submit_accept (m : Model) (h : m.marked_columns ≠ [])
    (hz : n_available m.field m.marked_row (m.marked_columns.getD 0 0)
      (m.marked_columns.getD 1 0) ≠ 0) :
    update m .keySubmit =
      { m with
        field := clearRange m.field m.marked_row (m.marked_columns.getD 0 0)
          (m.marked_columns.getD 1 0),
        row := 0, col := 0,
        marked_columns := [],
        marked_row := m.rows,
        player := m.player % 2 + 1 } := by
  simp only [update]
  rw [if_neg h, if_neg hz]

theorem select_noop (m : Model) (hp : getCell m.field m.row m.col = false) :
    update m .keySelect = m := by
  simp [update, hp]

theorem workingColumns_of_fresh (m : Model)
    (h : m.marked_row ≠ m.row ∨ m.marked_columns = []) :
    workingColumns m = [] := by
  unfold workingColumns
  rcases h with h | h
  · rw [if_pos h]
  · split <;> [rfl; exact h]

theorem workingColumns_of_same (m : Model) (h : m.marked_row = m.row) :
    workingColumns m = m.marked_columns := by
  unfold workingColumns
  rw [if_neg (by simpa using h)]

/-- Toggling a present cell with no usable prior selection (row changed, or
empty) yields the degenerate pair at the cursor column. -/
theorem select_fresh (m : Model) (hp : getCell m.field m.row m.col = true)
    (h : m.marked_row ≠ m.row ∨ m.marked_columns = []) :
    update m .keySelect = { m with marked_row := m.row, marked_columns := [m.col, m.col] } := by
  have hw := workingColumns_of_fresh m h
  simp [update, hp, hw, collapse, List.insertionSort, List.orderedInsert, List.getD]

/-- Toggling a present cell inside the current range on the same row cancels
the selection. -/
theorem select_cancel (m : Model) (lo hi : Int) (hp : getCell m.field m.row m.col = true)
    (hrow : m.marked_row = m.row) (hm : m.marked_columns = [lo, hi])
    (hin : lo ≤ m.col ∧ m.col ≤ hi) :
    update m .keySelect = { m with marked_row := m.row, marked_columns := [] } := by
  have hw : workingColumns m = [lo, hi] := by rw [workingColumns_of_same m hrow, hm]
  simp [update, hp, hw, List.getD, hin.1, hin.2]

/-- Toggling a present cell outside the current range on the same row extends
the range to the new extreme. -/
theorem select_extend (m : Model) (lo hi : Int) (hp : getCell m.field m.row m.col = true)
    (hrow : m.marked_row = m.row) (hm : m.marked_columns = [lo, hi]) (hlh : lo ≤ hi)
    (hout : m.col < lo ∨ hi < m.col) :
    update m .keySelect =
      { m with marked_row := m.row, marked_columns := [min lo m.col, max hi m.col] } := by
  have hw : workingColumns m = [lo, hi] := by rw [workingColumns_of_same m hrow, hm]
  have hnotin : ¬((workingColumns m ≠ []) ∧ (workingColumns m).getD 0 0 ≤ m.col ∧
      m.col ≤ (workingColumns m).getD 1 0) := by
    rw [hw]
    simp only [List.getD]
    intro hc
    rcases hout with h | h <;> simp at hc <;> omega
  simp only [update, hp]
  rw [if_neg (by simp), if_neg hnotin, hw, collapse_sort_extend lo hi m.col hlh]

theorem getD_pair_zero (a b : Int) : ([a, b] : List Int).getD 0 0 = a := rfl

theorem getD_pair_one (a b : Int) : ([a, b] : List Int).getD 1 0 = b := rfl

/-- Every event other than submit leaves the board untouched. -/
theorem update_field_nonsubmit (m : Model) (e : Msg) (h : e ≠ .keySubmit) :
    (update m e).field = m.field := by
  cases e
  case keySubmit => exact absurd rfl h
  case keySelect =>
    simp only [update]
    split
    · rfl
    · split <;> rfl
  all_goals rfl

/-- No event changes the board dimensions. -/
theorem update_dims (m : Model) (e : Msg) :
    (update m e).rows = m.rows ∧ (update m e).cols = m.cols := by
  cases e
  case keySubmit =>
    simp only [update]
    split
    · exact ⟨rfl, rfl⟩
    · split <;> exact ⟨rfl, rfl⟩
  case keySelect =>
    simp only [update]
    split
    · exact ⟨rfl, rfl⟩
    · split <;> exact ⟨rfl, rfl⟩
  all_goals exact ⟨rfl, rfl⟩

/-! ### The reachability invariant -/

theorem inv_init (term : String) (w h t : Int) : Inv (initModel term w h t) :=
  ⟨⟨rfl, rfl, le_refl 0, by norm_num [initModel], le_refl 0, by norm_num [initModel]⟩,
   Or.inl rfl⟩

theorem inv_step (m : Model) (e : Msg) (h : Inv m) : Inv (update m e) := by
  obtain ⟨⟨hrows, hcols, hr0, hr1, hc0, hc1⟩, hsel⟩ := h
  cases e
  case timeMsg t => exact ⟨⟨hrows, hcols, hr0, hr1, hc0, hc1⟩, hsel⟩
  case windowSize w h => exact ⟨⟨hrows, hcols, hr0, hr1, hc0, hc1⟩, hsel⟩
  case keyQuit => exact ⟨⟨hrows, hcols, hr0, hr1, hc0, hc1⟩, hsel⟩
  case keyOther => exact ⟨⟨hrows, hcols, hr0, hr1, hc0, hc1⟩, hsel⟩
  case keyHelp => exact ⟨⟨hrows, hcols, hr0, hr1, hc0, hc1⟩, hsel⟩
  case keyDown =>
    refine ⟨⟨hrows, hcols, ?_, ?_, hc0, hc1⟩, hsel⟩
    · show (0 : Int) ≤ if m.row + 1 > m.rows - 2 then m.rows - 1 else m.row + 1
      split <;> omega
    · show (if m.row + 1 > m.rows - 2 then m.rows - 1 else m.row + 1) < m.rows
      split <;> omega
  case keyUp =>
    refine ⟨⟨hrows, hcols, ?_, ?_, hc0, hc1⟩, hsel⟩
    · show (0 : Int) ≤ if m.row - 1 < 0 then 0 else m.row - 1
      split <;> omega
    · show (if m.row - 1 < 0 then 0 else m.row - 1) < m.rows
      split <;> omega
  case keyRight =>
    refine ⟨⟨hrows, hcols, hr0, hr1, ?_, ?_⟩, hsel⟩
    · show (0 : Int) ≤ if m.col + 1 > m.cols - 2 then m.cols - 1 else m.col + 1
      split <;> omega
    · show (if m.col + 1 > m.cols - 2 then m.cols - 1 else m.col + 1) < m.cols
      split <;> omega
  case keyLeft =>
    refine ⟨⟨hrows, hcols, hr0, hr1, ?_, ?_⟩, hsel⟩
    · show (0 : Int) ≤ if m.col - 1 < 0 then 0 else m.col - 1
      split <;> omega
    · show (if m.col - 1 < 0 then 0 else m.col - 1) < m.cols
      split <;> omega
  case keySubmit =>
    by_cases hmc : m.marked_columns = []
    · rw [submit_noop_empty m hmc]
      exact ⟨⟨hrows, hcols, hr0, hr1, hc0, hc1⟩, hsel⟩
    · by_cases hz : n_available m.field m.marked_row (m.marked_columns.getD 0 0)
          (m.marked_columns.getD 1 0) = 0
      · rw [submit_noop_zero m hmc hz]
        exact ⟨⟨hrows, hcols, hr0, hr1, hc0, hc1⟩, hsel⟩
      · rw [submit_accept m hmc hz]
        have h4 : (0 : Int) < m.rows := by omega
        have h7 : (0 : Int) < m.cols := by omega
        exact ⟨⟨hrows, hcols, le_refl 0, h4, le_refl 0, h7⟩, Or.inl rfl⟩
  case keySelect =>
    by_cases hp : getCell m.field m.row m.col = true
    · by_cases hfresh : m.marked_row ≠ m.row ∨ m.marked_columns = []
      · rw [select_fresh m hp hfresh]
        exact ⟨⟨hrows, hcols, hr0, hr1, hc0, hc1⟩,
          Or.inr ⟨m.col, m.col, rfl, le_refl _, hc0, hc1, hr0, hr1,
            m.col, le_refl _, le_refl _, hp⟩⟩
      · push_neg at hfresh
        obtain ⟨hrow, hne⟩ := hfresh
        rcases hsel with h0 | ⟨lo, hi, hm, hlh, hlo0, hhic, hmr0, hmr1, c, hcl, hch, hcp⟩
        · exact absurd h0 hne
        by_cases hin : lo ≤ m.col ∧ m.col ≤ hi
        · rw [select_cancel m lo hi hp hrow hm hin]
          exact ⟨⟨hrows, hcols, hr0, hr1, hc0, hc1⟩, Or.inl rfl⟩
        · have hout : m.col < lo ∨ hi < m.col := by
            rcases not_and_or.mp hin with h | h <;> omega
          rw [select_extend m lo hi hp hrow hm hlh hout]
          have h1 : min lo m.col ≤ max hi m.col := by omega
          have h2 : (0 : Int) ≤ min lo m.col := by omega
          have h3 : max hi m.col < m.cols := by omega
          exact ⟨⟨hrows, hcols, hr0, hr1, hc0, hc1⟩,
            Or.inr ⟨min lo m.col, max hi m.col, rfl, h1, h2, h3, hr0, hr1,
              m.col, by omega, by omega, hp⟩⟩
    · have hp' : getCell m.field m.row m.col = false := by
        cases hgc : getCell m.field m.row m.col
        · rfl
        · exact absurd hgc hp
      rw [select_noop m hp']
      exact ⟨⟨hrows, hcols, hr0, hr1, hc0, hc1⟩, hsel⟩

theorem reachable_inv (m : Model) (h : Reachable m) : Inv m := by
  induction h with
  | init term w h t => exact inv_init term w h t
  | step m e _ ih => exact inv_step m e ih

theorem reachable_foldl (m : Model) (h : Reachable m) (es : List Msg) :
    Reachable (List.foldl update m es) := by
  induction es generalizing m with
  | nil => exact h
  | cons e es ih => exact ih (update m e) (Reachable.step m e h)

/-! ### The frozen board -/

/-- With exactly one present cell left, any submit is rejected outright: a
non-empty selection always covers a present cell, so clearing it would leave
`remaining = 0`. -/
theorem submit_frozen (m : Model) (hinv : Inv m) (h1 : available m.field = 1) :
    update m .keySubmit = m := by
  rcases hinv.2 with h0 | ⟨lo, hi, hm, hlh, hlo0, hhic, hmr0, hmr1, c, hcl, hch, hcp⟩
  · exact submit_noop_empty m h0
  · have hlt := n_available_lt m.field m.marked_row lo hi c hcp hcl hch
    have hz : n_available m.field m.marked_row (m.marked_columns.getD 0 0)
        (m.marked_columns.getD 1 0) = 0 := by
      rw [hm, getD_pair_zero, getD_pair_one]
      omega
    exact submit_noop_zero m (by simp [hm]) hz

/-- With exactly one present cell left, no event changes the board. -/
theorem frozen_field (m : Model) (hinv : Inv m) (h1 : available m.field = 1) (e : Msg) :
    (update m e).field = m.field := by
  by_cases he : e = .keySubmit
  · subst he; rw [submit_frozen m hinv h1]
  · exact update_field_nonsubmit m e he

/-! ### Evaluating the witness states, one event at a time -/

theorem selModel_eq : selModel = mkState initField 3 0 3 ([0, 0] : List Int) 1 := by
  show List.foldl update (initModel "xterm" 80 24 0) selEvents = _
  simp only [selEvents, List.foldl]
  rw [show update (initModel "xterm" 80 24 0) .keyDown = mkState initField 1 0 0 ([] : List Int) 1 from by decide]
  rw [show update (mkState initField 1 0 0 ([] : List Int) 1) .keyDown = mkState initField 2 0 0 ([] : List Int) 1 from by decide]
  rw [show update (mkState initField 2 0 0 ([] : List Int) 1) .keyDown = mkState initField 3 0 0 ([] : List Int) 1 from by decide]
  rw [show update (mkState initField 3 0 0 ([] : List Int) 1) .keySelect = mkState initField 3 0 3 ([0, 0] : List Int) 1 from by decide]

theorem extendModel_eq : extendModel = mkState initField 3 2 3 ([0, 0] : List Int) 1 := by
  show List.foldl update (initModel "xterm" 80 24 0) extendEvents = _
  simp only [extendEvents, List.foldl]
  rw [show update (initModel "xterm" 80 24 0) .keyDown = mkState initField 1 0 0 ([] : List Int) 1 from by decide]
  rw [show update (mkState initField 1 0 0 ([] : List Int) 1) .keyDown = mkState initField 2 0 0 ([] : List Int) 1 from by decide]
  rw [show update (mkState initField 2 0 0 ([] : List Int) 1) .keyDown = mkState initField 3 0 0 ([] : List Int) 1 from by decide]
  rw [show update (mkState initField 3 0 0 ([] : List Int) 1) .keySelect = mkState initField 3 0 3 ([0, 0] : List Int) 1 from by decide]
  rw [show update (mkState initField 3 0 3 ([0, 0] : List Int) 1) .keyRight = mkState initField 3 1 3 ([0, 0] : List Int) 1 from by decide]
  rw [show update (mkState initField 3 1 3 ([0, 0] : List Int) 1) .keyRight = mkState initField 3 2 3 ([0, 0] : List Int) 1 from by decide]

theorem frozenModel_eq : frozenModel = mkState fieldC 0 0 4 ([] : List Int) 2 := by
  show List.foldl update (initModel "xterm" 80 24 0) freezeEvents = _
  simp only [freezeEvents, List.foldl]
  rw [show update (initModel "xterm" 80 24 0) .keyDown = mkState initField 1 0 0 ([] : List Int) 1 from by decide]
  rw [show update (mkState initField 1 0 0 ([] : List Int) 1) .keyDown = mkState initField 2 0 0 ([] : List Int) 1 from by decide]
  rw [show update (mkState initField 2 0 0 ([] : List Int) 1) .keyDown = mkState initField 3 0 0 ([] : List Int) 1 from by decide]
  rw [show update (mkState initField 3 0 0 ([] : List Int) 1) .keySelect = mkState initField 3 0 3 ([0, 0] : List Int) 1 from by decide]
  rw [show update (mkState initField 3 0 3 ([0, 0] : List Int) 1) .keyRight = mkState initField 3 1 3 ([0, 0] : List Int) 1 from by decide]
  rw [show update (mkState initField 3 1 3 ([0, 0] : List Int) 1) .keyRight = mkState initField 3 2 3 ([0, 0] : List Int) 1 from by decide]
  rw [show update (mkState initField 3 2 3 ([0, 0] : List Int) 1) .keyRight = mkState initField 3 3 3 ([0, 0] : List Int) 1 from by decide]
  rw [show update (mkState initField 3 3 3 ([0, 0] : List Int) 1) .keyRight = mkState initField 3 4 3 ([0, 0] : List Int) 1 from by decide]
  rw [show update (mkState initField 3 4 3 ([0, 0] : List Int) 1) .keyRight = mkState initField 3 5 3 ([0, 0] : List Int) 1 from by decide]
  rw [show update (mkState initField 3 5 3 ([0, 0] : List Int) 1) .keyRight = mkState initField 3 6 3 ([0, 0] : List Int) 1 from by decide]
  rw [show update (mkState initField 3 6 3 ([0, 0] : List Int) 1) .keySelect = mkState initField 3 6 3 ([0, 6] : List Int) 1 from by decide]
  rw [show update (mkState initField 3 6 3 ([0, 6] : List Int) 1) .keySubmit = mkState fieldA 0 0 4 ([] : List Int) 2 from by decide]
  rw [show update (mkState fieldA 0 0 4 ([] : List Int) 2) .keyDown = mkState fieldA 1 0 4 ([] : List Int) 2 from by decide]
  rw [show update (mkState fieldA 1 0 4 ([] : List Int) 2) .keyDown = mkState fieldA 2 0 4 ([] : List Int) 2 from by decide]
  rw [show update (mkState fieldA 2 0 4 ([] : List Int) 2) .keyRight = mkState fieldA 2 1 4 ([] : List Int) 2 from by decide]
  rw [show update (mkState fieldA 2 1 4 ([] : List Int) 2) .keySelect = mkState fieldA 2 1 2 ([1, 1] : List Int) 2 from by decide]
  rw [show update (mkState fieldA 2 1 2 ([1, 1] : List Int) 2) .keyRight = mkState fieldA 2 2 2 ([1, 1] : List Int) 2 from by decide]
  rw [show update (mkState fieldA 2 2 2 ([1, 1] : List Int) 2) .keyRight = mkState fieldA 2 3 2 ([1, 1] : List Int) 2 from by decide]
  rw [show update (mkState fieldA 2 3 2 ([1, 1] : List Int) 2) .keyRight = mkState fieldA 2 4 2 ([1, 1] : List Int) 2 from by decide]
  rw [show update (mkState fieldA 2 4 2 ([1, 1] : List Int) 2) .keyRight = mkState fieldA 2 5 2 ([1, 1] : List Int) 2 from by decide]
  rw [show update (mkState fieldA 2 5 2 ([1, 1] : List Int) 2) .keySelect = mkState fieldA 2 5 2 ([1, 5] : List Int) 2 from by decide]
  rw [show update (mkState fieldA 2 5 2 ([1, 5] : List Int) 2) .keySubmit = mkState fieldB 0 0 4 ([] : List Int) 1 from by decide]
  rw [show update (mkState fieldB 0 0 4 ([] : List Int) 1) .keyDown = mkState fieldB 1 0 4 ([] : List Int) 1 from by decide]
  rw [show update (mkState fieldB 1 0 4 ([] : List Int) 1) .keyRight = mkState fieldB 1 1 4 ([] : List Int) 1 from by decide]
  rw [show update (mkState fieldB 1 1 4 ([] : List Int) 1) .keyRight = mkState fieldB 1 2 4 ([] : List Int) 1 from by decide]
  rw [show update (mkState fieldB 1 2 4 ([] : List Int) 1) .keySelect = mkState fieldB 1 2 1 ([2, 2] : List Int) 1 from by decide]
  rw [show update (mkState fieldB 1 2 1 ([2, 2] : List Int) 1) .keyRight = mkState fieldB 1 3 1 ([2, 2] : List Int) 1 from by decide]
  rw [show update (mkState fieldB 1 3 1 ([2, 2] : List Int) 1) .keyRight = mkState fieldB 1 4 1 ([2, 2] : List Int) 1 from by decide]
  rw [show update (mkState fieldB 1 4 1 ([2, 2] : List Int) 1) .keySelect = mkState fieldB 1 4 1 ([2, 4] : List Int) 1 from by decide]
  rw [show update (mkState fieldB 1 4 1 ([2, 4] : List Int) 1) .keySubmit = mkState fieldC 0 0 4 ([] : List Int) 2 from by decide]

theorem gapModel_eq : gapModel = mkState fieldGap 3 1 3 ([0, 2] : List Int) 2 := by
  show List.foldl update (initModel "xterm" 80 24 0) gapEvents = _
  simp only [gapEvents, List.foldl]
  rw [show update (initModel "xterm" 80 24 0) .keyDown = mkState initField 1 0 0 ([] : List Int) 1 from by decide]
  rw [show update (mkState initField 1 0 0 ([] : List Int) 1) .keyDown = mkState initField 2 0 0 ([] : List Int) 1 from by decide]
  rw [show update (mkState initField 2 0 0 ([] : List Int) 1) .keyDown = mkState initField 3 0 0 ([] : List Int) 1 from by decide]
  rw [show update (mkState initField 3 0 0 ([] : List Int) 1) .keyRight = mkState initField 3 1 0 ([] : List Int) 1 from by decide]
  rw [show update (mkState initField 3 1 0 ([] : List Int) 1) .keySelect = mkState initField 3 1 3 ([1, 1] : List Int) 1 from by decide]
  rw [show update (mkState initField 3 1 3 ([1, 1] : List Int) 1) .keySubmit = mkState fieldGap 0 0 4 ([] : List Int) 2 from by decide]
  rw [show update (mkState fieldGap 0 0 4 ([] : List Int) 2) .keyDown = mkState fieldGap 1 0 4 ([] : List Int) 2 from by decide]
  rw [show update (mkState fieldGap 1 0 4 ([] : List Int) 2) .keyDown = mkState fieldGap 2 0 4 ([] : List Int) 2 from by decide]
  rw [show update (mkState fieldGap 2 0 4 ([] : List Int) 2) .keyDown = mkState fieldGap 3 0 4 ([] : List Int) 2 from by decide]
  rw [show update (mkState fieldGap 3 0 4 ([] : List Int) 2) .keySelect = mkState fieldGap 3 0 3 ([0, 0] : List Int) 2 from by decide]
  rw [show update (mkState fieldGap 3 0 3 ([0, 0] : List Int) 2) .keyRight = mkState fieldGap 3 1 3 ([0, 0] : List Int) 2 from by decide]
  rw [show update (mkState fieldGap 3 1 3 ([0, 0] : List Int) 2) .keyRight = mkState fieldGap 3 2 3 ([0, 0] : List Int) 2 from by decide]
  rw [show update (mkState fieldGap 3 2 3 ([0, 0] : List Int) 2) .keySelect = mkState fieldGap 3 2 3 ([0, 2] : List Int) 2 from by decide]
  rw [show update (mkState fieldGap 3 2 3 ([0, 2] : List Int) 2) .keyLeft = mkState fieldGap 3 1 3 ([0, 2] : List Int) 2 from by decide]

/-! ### The claims -/

/-- C1: Terminal-freeze: in every reachable session state with
`availableCount = 1`, every subsequent `submitMove` event is rejected (the
state is returned unchanged), and no sequence of further events ever changes
`availableCount` again. -/
theorem C1_terminal_freeze (m : Model) (hr : Reachable m)
    (h1 : available m.field = 1) :
    ∀ es : List Msg,
      available (List.foldl update m es).field = 1 ∧
      update (List.foldl update m es) .keySubmit = List.foldl update m es := by
  intro es
  induction es generalizing m with
  | nil => exact ⟨h1, submit_frozen m (reachable_inv m hr) h1⟩
  | cons e es ih =>
    have hinv := reachable_inv m hr
    have hf : (update m e).field = m.field := frozen_field m hinv h1 e
    have h1' : available (update m e).field = 1 := by rw [hf]; exact h1
    exact ih (update m e) (Reachable.step m e hr) h1'

/-- C1 witness: a concrete reachable frozen state (instantiating the event
sequence with `[]`: the count is 1 and the submit is rejected there). -/
theorem C1_terminal_freeze_witness :
    available (List.foldl update frozenModel []).field = 1 ∧
    update (List.foldl update frozenModel []) .keySubmit =
      List.foldl update frozenModel [] := by
  have hr : Reachable frozenModel :=
    reachable_foldl _ (Reachable.init "xterm" 80 24 0) freezeEvents
  have h1 : available frozenModel.field = 1 := by rw [frozenModel_eq]; decide
  exact C1_terminal_freeze frozenModel hr h1 []

/-- C2: an illegal submit — empty selection, or one whose clearing would
leave `remaining = 0` — returns the state unchanged (board, cursor,
selection and player); consequently a submit never drives `availableCount`
to 0. -/
theorem C2_illegal_submit_safe (m : Model) :
    ((m.marked_columns = [] ∨
        n_available m.field m.marked_row (m.marked_columns.getD 0 0)
          (m.marked_columns.getD 1 0) = 0) →
      update m .keySubmit = m) ∧
    (available (update m .keySubmit).field = 0 → available m.field = 0) := by
  constructor
  · rintro (h | h)
    · exact submit_noop_empty m h
    · by_cases hmc : m.marked_columns = []
      · exact submit_noop_empty m hmc
      · exact submit_noop_zero m hmc h
  · intro h0
    by_cases hmc : m.marked_columns = []
    · rw [submit_noop_empty m hmc] at h0; exact h0
    · by_cases hz : n_available m.field m.marked_row (m.marked_columns.getD 0 0)
          (m.marked_columns.getD 1 0) = 0
      · rw [submit_noop_zero m hmc hz] at h0; exact h0
      · exfalso
        rw [submit_accept m hmc hz] at h0
        have h0' : available (clearRange m.field m.marked_row
            (m.marked_columns.getD 0 0) (m.marked_columns.getD 1 0)) = 0 := h0
        rw [available_clearRange] at h0'
        exact hz h0'

/-- C2 witness: submit with an empty selection leaves the fresh session
unchanged. -/
theorem C2_illegal_submit_safe_witness :
    update (initModel "xterm" 80 24 0) .keySubmit = initModel "xterm" 80 24 0 :=
  (C2_illegal_submit_safe (initModel "xterm" 80 24 0)).1 (Or.inl rfl)

/-- C3: an accepted submit (non-empty selection `[lo, hi]`, `remaining ≠ 0`)
clears exactly the cells of columns `lo..hi` of `markedRow`, resets the
cursor to (0,0), empties the selection with `markedRow` set to the
out-of-range sentinel `rows`, and advances the player to `player % 2 + 1`. -/
theorem C3_accepted_submit (m : Model) (lo hi : Int)
    (hm : m.marked_columns = [lo, hi])
    (hrem : n_available m.field m.marked_row lo hi ≠ 0) :
    (∀ r c : Int, getCell (update m .keySubmit).field r c =
        if r = m.marked_row ∧ lo ≤ c ∧ c ≤ hi then false else getCell m.field r c) ∧
    (update m .keySubmit).row = 0 ∧
    (update m .keySubmit).col = 0 ∧
    (update m .keySubmit).marked_columns = [] ∧
    (update m .keySubmit).marked_row = m.rows ∧
    (update m .keySubmit).player = m.player % 2 + 1 := by
  have hmc : m.marked_columns ≠ [] := by simp [hm]
  have hz : n_available m.field m.marked_row (m.marked_columns.getD 0 0)
      (m.marked_columns.getD 1 0) ≠ 0 := by
    rw [hm, getD_pair_zero, getD_pair_one]; exact hrem
  rw [submit_accept m hmc hz]
  refine ⟨?_, rfl, rfl, rfl, rfl, rfl⟩
  intro r c
  show getCell (clearRange m.field m.marked_row (m.marked_columns.getD 0 0)
      (m.marked_columns.getD 1 0)) r c = _
  rw [hm, getD_pair_zero, getD_pair_one, getCell_clearRange]

/-- C3 witness: submitting the selection `[0, 0]` on row 3 of the fresh
board. -/
theorem C3_accepted_submit_witness :
    (update selModel .keySubmit).row = 0 ∧
    (update selModel .keySubmit).col = 0 ∧
    (update selModel .keySubmit).marked_columns = [] ∧
    (update selModel .keySubmit).marked_row = selModel.rows ∧
    (update selModel .keySubmit).player = selModel.player % 2 + 1 ∧
    getCell (update selModel .keySubmit).field 3 0 = false := by
  have h := C3_accepted_submit selModel 0 0 (by rw [selModel_eq]; decide)
    (by rw [selModel_eq]; decide)
  refine ⟨h.2.1, h.2.2.1, h.2.2.2.1, h.2.2.2.2.1, h.2.2.2.2.2, ?_⟩
  have hcond : (3 : Int) = selModel.marked_row ∧ (0 : Int) ≤ (0 : Int) ∧
      (0 : Int) ≤ (0 : Int) := ⟨by rw [selModel_eq]; decide, le_refl 0, le_refl 0⟩
  rw [h.1 3 0, if_pos hcond]

/-- C4: every processed event is monotone on the board: `availableCount`
never increases, a cleared cell is never set back to present, and a strict
decrease happens only on an accepted submit. -/
theorem C4_monotonic (m : Model) (e : Msg) :
    available (update m e).field ≤ available m.field ∧
    (∀ r c : Int, getCell m.field r c = false → getCell (update m e).field r c = false) ∧
    (available (update m e).field < available m.field →
      e = .keySubmit ∧ m.marked_columns ≠ [] ∧
        n_available m.field m.marked_row (m.marked_columns.getD 0 0)
          (m.marked_columns.getD 1 0) ≠ 0) := by
  by_cases he : e = .keySubmit
  · subst he
    by_cases hmc : m.marked_columns = []
    · rw [submit_noop_empty m hmc]
      exact ⟨le_refl _, fun r c h => h, fun hlt => absurd hlt (lt_irrefl _)⟩
    · by_cases hz : n_available m.field m.marked_row (m.marked_columns.getD 0 0)
          (m.marked_columns.getD 1 0) = 0
      · rw [submit_noop_zero m hmc hz]
        exact ⟨le_refl _, fun r c h => h, fun hlt => absurd hlt (lt_irrefl _)⟩
      · rw [submit_accept m hmc hz]
        refine ⟨?_, ?_, fun hlt => ⟨rfl, hmc, hz⟩⟩
        · show available (clearRange m.field m.marked_row (m.marked_columns.getD 0 0)
            (m.marked_columns.getD 1 0)) ≤ available m.field
          rw [available_clearRange]
          exact n_available_le _ _ _ _
        · intro r c h
          show getCell (clearRange m.field m.marked_row (m.marked_columns.getD 0 0)
            (m.marked_columns.getD 1 0)) r c = false
          rw [getCell_clearRange]
          split
          · rfl
          · exact h
  · have hf := update_field_nonsubmit m e he
    rw [hf]
    exact ⟨le_refl _, fun r c h => h, fun hlt => absurd hlt (lt_irrefl _)⟩

/-- C4 witness: an accepted submit strictly decreases the count, and the
strict-decrease implication fires on it. -/
theorem C4_monotonic_witness :
    available (update selModel .keySubmit).field ≤ available selModel.field ∧
    (Msg.keySubmit = Msg.keySubmit ∧ selModel.marked_columns ≠ [] ∧
      n_available selModel.field selModel.marked_row (selModel.marked_columns.getD 0 0)
        (selModel.marked_columns.getD 1 0) ≠ 0) := by
  have h := C4_monotonic selModel .keySubmit
  exact ⟨h.1, h.2.2 (by rw [selModel_eq]; decide)⟩

/-- C5 counterexample: in the reachable state `gapModel` the cursor (3,1)
lies on `markedRow` strictly inside the non-empty range `[0, 2]`, yet
toggling there does not clear the selection — the cell under the cursor is
absent, so the toggle is a no-op. -/
theorem C5_cancel_counterexample :
    gapModel.marked_row = gapModel.row ∧
    gapModel.marked_columns = [0, 2] ∧
    gapModel.marked_columns.getD 0 0 ≤ gapModel.col ∧
    gapModel.col ≤ gapModel.marked_columns.getD 1 0 ∧
    (update gapModel .keySelect).marked_columns = [0, 2] := by
  rw [gapModel_eq]
  refine ⟨?_, ?_, ?_, ?_, ?_⟩ <;> decide

/-- C5 (amended): toggling at a cursor position on `markedRow` inside the
non-empty range `[lo, hi]` whose cell is still present clears the selection
entirely, and toggling the same present cell twice in a row from an empty
selection returns the selection to empty with the board unchanged. -/
theorem C5_cancel_law (m : Model) (lo hi : Int)
    (hp : getCell m.field m.row m.col = true) :
    (m.marked_row = m.row → m.marked_columns = [lo, hi] → lo ≤ m.col → m.col ≤ hi →
      (update m .keySelect).marked_columns = [] ∧
      (update m .keySelect).field = m.field) ∧
    (m.marked_columns = [] →
      (update (update m .keySelect) .keySelect).marked_columns = [] ∧
      (update (update m .keySelect) .keySelect).field = m.field) := by
  constructor
  · intro hrow hm hlo hhi
    rw [select_cancel m lo hi hp hrow hm ⟨hlo, hhi⟩]
    exact ⟨rfl, rfl⟩
  · intro hmc
    rw [select_fresh m hp (Or.inr hmc)]
    have hp' : getCell
        ({ m with marked_row := m.row, marked_columns := [m.col, m.col] } : Model).field
        ({ m with marked_row := m.row, marked_columns := [m.col, m.col] } : Model).row
        ({ m with marked_row := m.row, marked_columns := [m.col, m.col] } : Model).col =
        true := hp
    rw [select_cancel _ m.col m.col hp' rfl rfl ⟨le_refl _, le_refl _⟩]
    exact ⟨rfl, rfl⟩

/-- C5 witness: double-toggling the present cell (3,0) from the fresh board's
empty selection, and cancelling the selection `[0, 0]` at (3,0). -/
theorem C5_cancel_law_witness :
    (update selModel .keySelect).marked_columns = [] ∧
    (update selModel .keySelect).field = selModel.field := by
  exact (C5_cancel_law selModel 0 0 (by rw [selModel_eq]; decide)).1
    (by rw [selModel_eq]; decide) (by rw [selModel_eq]; decide)
    (by rw [selModel_eq]; decide) (by rw [selModel_eq]; decide)

/-- C6: with a non-empty selection `[lo, hi]` on the cursor's row, toggling a
present cell outside the range extends it to `[min lo col, max hi col]` (no
condition on the cells strictly between the endpoints), and a first toggle on
a fresh row yields the degenerate pair `[col, col]`. -/
theorem C6_extend_law (m : Model) (hp : getCell m.field m.row m.col = true) :
    (∀ lo hi : Int, m.marked_row = m.row → m.marked_columns = [lo, hi] → lo ≤ hi →
      (m.col < lo ∨ hi < m.col) →
      (update m .keySelect).marked_columns = [min lo m.col, max hi m.col] ∧
      (update m .keySelect).marked_row = m.row ∧
      (update m .keySelect).field = m.field) ∧
    ((m.marked_row ≠ m.row ∨ m.marked_columns = []) →
      (update m .keySelect).marked_columns = [m.col, m.col] ∧
      (update m .keySelect).marked_row = m.row ∧
      (update m .keySelect).field = m.field) := by
  constructor
  · intro lo hi hrow hm hlh hout
    rw [select_extend m lo hi hp hrow hm hlh hout]
    exact ⟨rfl, rfl, rfl⟩
  · intro h
    rw [select_fresh m hp h]
    exact ⟨rfl, rfl, rfl⟩

/-- C6 witness: extending the selection `[0, 0]` on row 3 by toggling the
present cell (3,2). -/
theorem C6_extend_law_witness :
    (update extendModel .keySelect).marked_columns =
      [min 0 extendModel.col, max 0 extendModel.col] ∧
    (update extendModel .keySelect).marked_row = extendModel.row := by
  have h := (C6_extend_law extendModel (by rw [extendModel_eq]; decide)).1 0 0
    (by rw [extendModel_eq]; decide) (by rw [extendModel_eq]; decide)
    (le_refl 0) (by rw [extendModel_eq]; decide)
  exact ⟨h.1, h.2.1⟩

/-- C7: in every reachable state a non-empty selection is an ascending pair
within the column bounds, and a toggle of a present cell on a row different
from `markedRow` starts a fresh degenerate selection on that row (the old
range is discarded wholesale). -/
theorem C7_selection_invariant (m : Model) (hr : Reachable m) :
    (m.marked_columns = [] ∨
      ∃ lo hi : Int, m.marked_columns = [lo, hi] ∧ lo ≤ hi ∧
        0 ≤ lo ∧ hi ≤ m.cols - 1) ∧
    (m.marked_row ≠ m.row → getCell m.field m.row m.col = true →
      (update m .keySelect).marked_columns = [m.col, m.col] ∧
      (update m .keySelect).marked_row = m.row) := by
  obtain ⟨hbase, hsel⟩ := reachable_inv m hr
  constructor
  · rcases hsel with h0 | ⟨lo, hi, hm, hlh, hlo0, hhic, hrest⟩
    · exact Or.inl h0
    · exact Or.inr ⟨lo, hi, hm, hlh, hlo0, by omega⟩
  · intro hrow hp
    rw [select_fresh m hp (Or.inl hrow)]
    exact ⟨rfl, rfl⟩

/-- C7 witness: the invariant holds at the reachable state `selModel`. -/
theorem C7_selection_invariant_witness :
    selModel.marked_columns = [] ∨
      ∃ lo hi : Int, selModel.marked_columns = [lo, hi] ∧ lo ≤ hi ∧
        0 ≤ lo ∧ hi ≤ selModel.cols - 1 :=
  (C7_selection_invariant selModel
    (reachable_foldl _ (Reachable.init "xterm" 80 24 0) selEvents)).1

/-- C8 counterexample: the fresh board is not right-aligned — row 0's single
present cell sits at column 3, not flush against column 6. -/
theorem C8_counterexample : ¬ rightAlignedClaim := by
  intro h
  have h03 : getCell initField ((0 : Nat) : Int) ((3 : Nat) : Int) = true := by decide
  have := (h.2 0 (by norm_num) 3 (by norm_num)).mp h03
  omega

/-- C8 (amended): row `i` of the fresh board contains exactly `2*i+1` present
cells, and they are centered in the common 7-column width: present exactly at
the columns `j` with `3 - i ≤ j ≤ 3 + i`. -/
theorem C8_initial_board (i : Nat) (hi : i < 4) :
    availRow (initField.getD i []) = 2 * i + 1 ∧
    ∀ j : Nat, j < 7 →
      (getCell initField i j = true ↔ 3 ≤ i + j ∧ j ≤ 3 + i) := by
  revert i
  decide

/-- C8 witness: row 2 has 5 present cells and cell (2,1) is present since
`3 ≤ 2 + 1`. -/
theorem C8_initial_board_witness :
    availRow (initField.getD 2 []) = 2 * 2 + 1 ∧
    (getCell initField 2 1 = true ↔ 3 ≤ 2 + 1 ∧ 1 ≤ 3 + 2) := by
  have h := C8_initial_board 2 (by norm_num)
  exact ⟨h.1, h.2 1 (by norm_num)⟩

/-- C9: in every reachable state `marked_columns` is nil or a two-element
slice (never a single element), so the `marked_columns[0]` / `[1]` accesses
of the submit branch and of the cancel check are in bounds and the
one-element branch of `contains` never fires during rendering. -/
theorem C9_pair_shape (m : Model) (hr : Reachable m) :
    (m.marked_columns = [] ∨ ∃ a b : Int, m.marked_columns = [a, b]) ∧
    m.marked_columns.length ≠ 1 := by
  rcases (reachable_inv m hr).2 with h0 | ⟨lo, hi, hm, hrest⟩
  · exact ⟨Or.inl h0, by simp [h0]⟩
  · exact ⟨Or.inr ⟨lo, hi, hm⟩, by simp [hm]⟩

/-- C9 witness: the shape fact at the reachable state `selModel`. -/
theorem C9_pair_shape_witness :
    (selModel.marked_columns = [] ∨ ∃ a b : Int, selModel.marked_columns = [a, b]) ∧
    selModel.marked_columns.length ≠ 1 :=
  C9_pair_shape selModel (reachable_foldl _ (Reachable.init "xterm" 80 24 0) selEvents)

/-- Go's `uint` conversion is the identity on non-negative 64-bit values. -/
theorem goUint_of_nonneg (x : Int) (h0 : 0 ≤ x) (h1 : x < 2 ^ 64) :
    goUint x = x.toNat := by
  unfold goUint
  rw [Int.emod_eq_of_lt h0 h1]

/-- C10: for every terminal width, each centered block of the frame is
left-padded by `(width - contentWidth) / 2` computed by integer division on
the unsigned difference `uint(width - contentWidth)` (content widths 11, 15
and 24 for title, status and board), and the pad — a natural number — is
never negative.  Whenever the width accommodates the content (and is a
representable Go `int`), the pad moreover equals the signed integer division
`(width - contentWidth) / 2`. -/
theorem C10_centering_pad (m : Model) :
    (view m).titleIndent = goUint (m.width - 11) / 2 ∧
    (view m).statusIndent = goUint (m.width - 15) / 2 ∧
    (view m).gameIndent = goUint (m.width - 24) / 2 ∧
    0 ≤ ((view m).titleIndent : Int) ∧
    0 ≤ ((view m).statusIndent : Int) ∧
    0 ≤ ((view m).gameIndent : Int) ∧
    (11 ≤ m.width → m.width < 2 ^ 63 →
      ((view m).titleIndent : Int) = (m.width - 11) / 2) ∧
    (15 ≤ m.width → m.width < 2 ^ 63 →
      ((view m).statusIndent : Int) = (m.width - 15) / 2) ∧
    (24 ≤ m.width → m.width < 2 ^ 63 →
      ((view m).gameIndent : Int) = (m.width - 24) / 2) := by
  have key : ∀ k : Int, 0 ≤ k → k < 2 ^ 64 → ((goUint k / 2 : Nat) : Int) = k / 2 := by
    intro k h0 h1
    rw [goUint_of_nonneg k h0 h1, Int.natCast_div, Int.toNat_of_nonneg h0]
    norm_num
  refine ⟨rfl, rfl, rfl, Int.natCast_nonneg _, Int.natCast_nonneg _, Int.natCast_nonneg _,
    fun h1 h2 => key _ (by omega) (by omega),
    fun h1 h2 => key _ (by omega) (by omega),
    fun h1 h2 => key _ (by omega) (by omega)⟩

/-- C10 witness: the 80-column fresh session — the pad is the unsigned
formula, is non-negative, and (80 being wide enough) equals `(80 - 11) / 2`. -/
theorem C10_centering_pad_witness :
    (view (initModel "xterm" 80 24 0)).titleIndent =
      goUint ((initModel "xterm" 80 24 0).width - 11) / 2 ∧
    0 ≤ ((view (initModel "xterm" 80 24 0)).titleIndent : Int) ∧
    ((view (initModel "xterm" 80 24 0)).titleIndent : Int) = (80 - 11) / 2 := by
  have h := C10_centering_pad (initModel "xterm" 80 24 0)
  exact ⟨h.1, h.2.2.2.1,
    h.2.2.2.2.2.2.1 (by norm_num [initModel]) (by norm_num [initModel])⟩

end Nimm
